import Mathlib

/-!
Shallow embedding of `policy/reviewer/reviewer.go` (package `reviewer`) from
sideeffffect/policy-bot, together with proofs of the specified properties.

Modelling conventions:
* `*rand.Rand` is modelled as a deterministic stream of raw draws together
  with a position; `r.Intn(k)` consumes one stream value and reduces it
  modulo `k`.  `rand.Intn` panics on a non-positive bound; this is modelled
  by `Rng.intn` returning `none` when the bound is `0`, which callers turn
  into the distinguished fatal error `RunError.emptyIntn`.
* Go functions returning `(value, error)` are modelled as returning
  `Except RunError value`; a Go `panic` is modelled as the error
  constructors `RunError.panicked` / `RunError.emptyIntn`, which no caller
  in this file ever swallows, while ordinary returned errors are
  `RunError.fail` and are handled exactly where the Go code handles them.
* Go maps (`map[string]string`, `map[string]struct{}`) are modelled as
  association lists / dedup-preserving lists.  Go map iteration order is
  unspecified; the embedding fixes insertion order, which is one of the
  admissible orders.  None of the proved properties depend on that order.
* Functions that use the generator thread it explicitly: they return the
  advanced generator alongside the `Except` result, as the Go code mutates
  the shared generator even on the error paths.
-/

/-- Deterministic model of `*rand.Rand`: an infinite stream of raw draws
plus the position of the next draw. -/
structure Rng where
  stream : Nat → Nat
  pos : Nat

/-- `r.Intn(k)`: `none` models the Go panic on a non-positive bound;
otherwise the next stream value reduced modulo `k`, with the generator
advanced by one position. -/
def Rng.intn (r : Rng) (k : Nat) : Option (Nat × Rng) :=
  if k = 0 then none
  else some (r.stream r.pos % k, ⟨r.stream, r.pos + 1⟩)

/-- Error outcomes: `fail` is an ordinary Go error value, `panicked` the
sampler's `panic(...)`, `emptyIntn` the panic of `rand.Intn` on bound 0. -/
inductive RunError where
  | fail (msg : String)
  | panicked (msg : String)
  | emptyIntn
deriving DecidableEq, Repr

/-- `errors.Wrap(err, ctx)` on an ordinary error value. -/
def RunError.wrap : RunError → String → RunError
  | .fail msg, ctx => .fail (ctx ++ ": " ++ msg)
  | e, _ => e

/-- `common.Status`. -/
inductive Status where
  | approved
  | pending
  | disapproved
  | skipped
deriving DecidableEq, Repr

/-- `common.AdminScope`; `unknown` covers any value outside the closed
enum, hitting the `default` branch of `selectAdmins`. -/
inductive AdminScope where
  | user
  | team
  | org
  | unknown (s : String)
deriving DecidableEq, Repr

def githubAdminPermission : String := "admin"

def githubWritePermission : String := "write"

/-- `common.ReviewRequestRule`. -/
structure ReviewRequestRule where
  users : List String
  teams : List String
  organizations : List String
  writeCollaborators : Bool
  admins : Bool
  adminScope : AdminScope
  requiredCount : Nat
deriving DecidableEq, Repr

/-- `common.Result`: a node of the policy evaluation tree.  `children`
holds optional nodes because the Go slice `[]*common.Result` may contain
nil entries. -/
inductive Result where
  | node (status : Status) (err : Option String) (children : List (Option Result))
      (rule : ReviewRequestRule)

def Result.status : Result → Status
  | .node s _ _ _ => s

def Result.error : Result → Option String
  | .node _ e _ _ => e

def Result.children : Result → List (Option Result)
  | .node _ _ c _ => c

def Result.rule : Result → ReviewRequestRule
  | .node _ _ _ rr => rr

mutual

/-- `findLeafChildren` from reviewer.go: collects the pending, error-free,
childless descendants reachable through pending children. -/
def findLeafChildren : Result → List Result
  | .node st err cs rr =>
    match cs with
    | [] =>
      if st = Status.pending ∧ err = none then [Result.node st err [] rr] else []
    | c :: rest => findLeafChildrenList (c :: rest)

/-- The `for _, c := range result.Children` loop of `findLeafChildren`. -/
def findLeafChildrenList : List (Option Result) → List Result
  | [] => []
  | c :: rest =>
    (match c with
     | none => []
     | some child =>
       if Result.status child = Status.pending then findLeafChildren child else []) ++
    findLeafChildrenList rest

end

/-- The inner `for { ... }` retry loop of `selectRandomUsers`: find one not
yet selected random index, counting failed draws in `j` and panicking once
`j` exceeds `n*5`. -/
def pickIndex (users : List String) (selected : List Nat) (n : Nat) (j : Nat) (r : Rng) :
    Except RunError (Nat × Rng) :=
  if n * 5 < j then
    .error (.panicked ("Unable to select random value for " ++ toString n ++ " " ++
      toString users.length))
  else
    match r.intn users.length with
    | none => .error .emptyIntn
    | some (m, r') =>
      if m ∈ selected then pickIndex users selected n (j + 1) r' else .ok (m, r')
termination_by n * 5 + 1 - j

/-- The outer `for i := 0; i < n; i++` loop of `selectRandomUsers`,
with `rem` iterations remaining. -/
def selectLoop (users : List String) (n : Nat) (rem : Nat) (selected : List Nat)
    (acc : List String) (r : Rng) : Except RunError (List String) × Rng :=
  match rem with
  | 0 => (.ok acc, r)
  | rem' + 1 =>
    match pickIndex users selected n 0 r with
    | .error e => (.error e, r)
    | .ok (m, r') => selectLoop users n rem' (m :: selected) (acc ++ [users.getD m ""]) r'

/-- `selectRandomUsers` from reviewer.go: select `n` random values from
`users` without index reuse. -/
def selectRandomUsers (n : Nat) (users : List String) (r : Rng) :
    Except RunError (List String) × Rng :=
  if n = 0 then (.ok [], r)
  else if users.length ≤ n then (.ok users, r)
  else selectLoop users n n [] [] r

/-- `pull.Context`, restricted to the methods reviewer.go uses.  Each
lookup may fail with an error message, modelling `(value, error)`. -/
structure PullContext where
  author : String
  repositoryOwner : String
  repositoryName : String
  directRepositoryCollaborators : Except String (List (String × String))
  repositoryCollaborators : Except String (List (String × String))
  teams : Except String (List (String × String))
  teamMembers : String → Except String (List String)
  organizationMembers : String → Except String (List String)
  organizationOwners : String → Except String (List String)

/-- First-match association-list lookup, modelling `m[k]`. -/
def lookupA (l : List (String × String)) (k : String) : Option String :=
  match l with
  | [] => none
  | (k', v) :: rest => if k' = k then some v else lookupA rest k

/-- Insertion into the `map[string]struct{}` candidate set, keeping
insertion order and dropping duplicates. -/
def insertUser (l : List String) (u : String) : List String :=
  if u ∈ l then l else l ++ [u]

/-- `for _, user := range us { allUsers[user] = struct{}{} }`. -/
def insertUsers (l : List String) (us : List String) : List String :=
  us.foldl insertUser l

/-- `selectTeamMembers` from reviewer.go: draw one random team and resolve
its membership; the lookup error is wrapped, the generator is advanced
either way. -/
def selectTeamMembers (prctx : PullContext) (allTeams : List String) (r : Rng) :
    Except RunError (List String) × Rng :=
  match r.intn allTeams.length with
  | none => (.error .emptyIntn, r)
  | some (i, r') =>
    match prctx.teamMembers (allTeams.getD i "") with
    | .error e =>
      (.error (.fail ("failed to get member listing for team " ++ allTeams.getD i "" ++
        ": " ++ e)), r')
    | .ok teamMembers => (.ok teamMembers, r')

/-- `selectOrgMembers` from reviewer.go. -/
def selectOrgMembers (prctx : PullContext) (allOrgs : List String) (r : Rng) :
    Except RunError (List String) × Rng :=
  match r.intn allOrgs.length with
  | none => (.error .emptyIntn, r)
  | some (i, r') =>
    match prctx.organizationMembers (allOrgs.getD i "") with
    | .error e =>
      (.error (.fail ("failed to get member listing for org " ++ allOrgs.getD i "" ++
        ": " ++ e)), r')
    | .ok orgMembers => (.ok orgMembers, r')

/-- The `AdminScopeTeam` loop of `selectAdmins`: for every admin team,
resolve the owner-qualified team's membership, failing fast on a lookup
error. -/
def adminTeamFold (prctx : PullContext) : List (String × String) → Except RunError (List String)
  | [] => .ok []
  | (team, perm) :: rest =>
    if perm = githubAdminPermission then
      match prctx.teamMembers (prctx.repositoryOwner ++ "/" ++ team) with
      | .error e => .error (.fail ("Unable to get list of members for " ++ team ++ ": " ++ e))
      | .ok admins =>
        match adminTeamFold prctx rest with
        | .error e => .error e
        | .ok restAdmins => .ok (admins ++ restAdmins)
    else adminTeamFold prctx rest

/-- `selectAdmins` from reviewer.go.  The generator parameter of the Go
function is unused, so it is omitted here. -/
def selectAdmins (prctx : PullContext) (adminScope : AdminScope) :
    Except RunError (List String) :=
  match adminScope with
  | .user =>
    match prctx.directRepositoryCollaborators with
    | .error e =>
      .error (.fail ("Unable to get list of direct collaborators on " ++
        prctx.repositoryName ++ ": " ++ e))
    | .ok directCollaborators =>
      .ok ((directCollaborators.filter (fun p => p.2 = githubAdminPermission)).map (fun p => p.1))
  | .team =>
    match prctx.teams with
    | .error e => .error (.fail ("Unable to get list of teams collaborators: " ++ e))
    | .ok teams => adminTeamFold prctx teams
  | .org =>
    match prctx.organizationOwners prctx.repositoryOwner with
    | .error e =>
      .error (.fail ("Unable to get list of org owners for " ++ prctx.repositoryOwner ++ ": " ++ e))
    | .ok orgOwners => .ok orgOwners
  | .unknown s => .error (.fail ("Unknown AdminScope " ++ s ++ ", ignoring"))

/-- The caller-side handling of `selectTeamMembers` / `selectOrgMembers`
errors inside `FindRandomRequesters`: an ordinary lookup error is logged
and the source contributes nothing (`teamMembers` stays nil), while a
panic propagates. -/
def logged : Except RunError (List String) × Rng → Except RunError (List String) × Rng
  | (.error (.fail _), r) => (.ok [], r)
  | other => other

/-- The `len(child.ReviewRequestRule.Users) > 0` block: seed the candidate
set with the explicit users. -/
def usersStep (rule : ReviewRequestRule) : List String :=
  if rule.users = [] then [] else insertUsers [] rule.users

/-- The `len(child.ReviewRequestRule.Teams) > 0` block: at most one random
team's membership, with lookup failures logged and contributing nothing. -/
def teamsStep (prctx : PullContext) (rule : ReviewRequestRule) (r : Rng) :
    Except RunError (List String) × Rng :=
  if rule.teams = [] then (.ok [], r) else logged (selectTeamMembers prctx rule.teams r)

/-- The `len(child.ReviewRequestRule.Organizations) > 0` block. -/
def orgsStep (prctx : PullContext) (rule : ReviewRequestRule) (r : Rng) :
    Except RunError (List String) × Rng :=
  if rule.organizations = [] then (.ok [], r)
  else logged (selectOrgMembers prctx rule.organizations r)

/-- The `child.ReviewRequestRule.WriteCollaborators` block: add every
collaborator whose permission is exactly write. -/
def writeStep (rule : ReviewRequestRule) (allUsers : List String)
    (allCollaborators : List (String × String)) : List String :=
  if rule.writeCollaborators then
    insertUsers allUsers
      ((allCollaborators.filter (fun p => p.2 = githubWritePermission)).map (fun p => p.1))
  else allUsers

/-- The admins conditional of `FindRandomRequesters`: fix the final
candidate set and the `collaboratorsToConsider` eligibility map. -/
def eligStep (prctx : PullContext) (rule : ReviewRequestRule) (allUsers : List String)
    (allCollaborators : List (String × String)) :
    Except RunError (List String × List (String × String)) :=
  if !rule.admins then .ok (allUsers, allCollaborators)
  else
    match selectAdmins prctx rule.adminScope with
    | .error e => .error (e.wrap "Unable to select admins")
    | .ok admins =>
      .ok (insertUsers allUsers admins, admins.map (fun a => (a, githubAdminPermission)))

/-- The `for u := range allUsers` filter: drop the author and everyone
absent from `collaboratorsToConsider`. -/
def finalFilter (prctx : PullContext) (allUsers : List String)
    (collaboratorsToConsider : List (String × String)) : List String :=
  allUsers.filter (fun u => u ≠ prctx.author ∧ (lookupA collaboratorsToConsider u).isSome)

/-- The candidate-assembly part of the `FindRandomRequesters` loop body
for one pending leaf: returns the filtered candidate list `allUserList`
together with the eligibility map `collaboratorsToConsider`. -/
def buildCandidates (prctx : PullContext) (child : Result) (r : Rng) :
    Except RunError (List String × List (String × String)) × Rng :=
  match teamsStep prctx (Result.rule child) r with
  | (.error e, r₁) => (.error e, r₁)
  | (.ok teamMembers, r₁) =>
    match orgsStep prctx (Result.rule child) r₁ with
    | (.error e, r₂) => (.error e, r₂)
    | (.ok orgMembers, r₂) =>
      match prctx.repositoryCollaborators with
      | .error e => (.error (.fail ("Unable to list repository collaborators: " ++ e)), r₂)
      | .ok allCollaborators =>
        match eligStep prctx (Result.rule child)
            (writeStep (Result.rule child)
              (insertUsers (insertUsers (usersStep (Result.rule child)) teamMembers) orgMembers)
              allCollaborators)
            allCollaborators with
        | .error e => (.error e, r₂)
        | .ok (allUsersF, collaboratorsToConsider) =>
          (.ok (finalFilter prctx allUsersF collaboratorsToConsider, collaboratorsToConsider), r₂)

/-- One iteration of the `for _, child := range pendingLeafNodes` loop:
assemble the candidates for `child` and sample
`child.ReviewRequestRule.RequiredCount` of them. -/
def processLeaf (prctx : PullContext) (child : Result) (r : Rng) :
    Except RunError (List String) × Rng :=
  match buildCandidates prctx child r with
  | (.error e, r') => (.error e, r')
  | (.ok (allUserList, _), r') =>
    selectRandomUsers (Result.rule child).requiredCount allUserList r'

/-- The leaf loop of `FindRandomRequesters`, accumulating `requestedUsers`. -/
def findRandomLoop (prctx : PullContext) (leaves : List Result) (acc : List String) (r : Rng) :
    Except RunError (List String) × Rng :=
  match leaves with
  | [] => (.ok acc, r)
  | child :: rest =>
    match processLeaf prctx child r with
    | (.error e, r') => (.error e, r')
    | (.ok randomSelection, r') => findRandomLoop prctx rest (acc ++ randomSelection) r'

/-- `FindRandomRequesters` from reviewer.go. -/
def FindRandomRequesters (prctx : PullContext) (result : Result) (r : Rng) :
    Except RunError (List String) :=
  (findRandomLoop prctx (findLeafChildren result) [] r).1

/-- `ReachPending root leaf`: `leaf` is reachable from `root` by a chain of
child steps each of which enters a non-nil child whose status is Pending.
This is the specification-side description of which nodes the leaf
collector may visit. -/
inductive ReachPending : Result → Result → Prop where
  | refl (r : Result) : ReachPending r r
  | step {r c leaf : Result} : some c ∈ Result.children r → Result.status c = Status.pending →
      ReachPending c leaf → ReachPending r leaf

/-! Concrete fixtures used by the witness and counterexample theorems. -/

/-- A generator that always draws raw value 0. -/
def rngZero : Rng := ⟨fun _ => 0, 0⟩

/-- A generator whose raw draws are 0,1,2,... -/
def rngId : Rng := ⟨fun i => i, 0⟩

/-- A generator drawing 0 eleven times and then 1: it forces ten index
collisions in the sampler before the second pick succeeds. -/
def rngCollide : Rng := ⟨fun i => if i = 11 then 1 else 0, 0⟩

/-- A small concrete repository context. -/
def ctxW : PullContext where
  author := "alice"
  repositoryOwner := "own"
  repositoryName := "repo"
  directRepositoryCollaborators := Except.ok [("alice", "admin")]
  repositoryCollaborators :=
    Except.ok [("alice", "admin"), ("bob", "write"), ("carol", "write")]
  teams := Except.ok []
  teamMembers := fun _ => Except.error "team lookup failed"
  organizationMembers := fun _ => Except.error "org lookup failed"
  organizationOwners := fun o => if o = "own" then Except.ok ["x", "y"] else Except.error "no"

/-- The same context with a failing repository-collaborator listing. -/
def ctxWBroken : PullContext :=
  { ctxW with repositoryCollaborators := Except.error "boom" }

/-- A rule asking for one reviewer out of two explicit users. -/
def ruleW : ReviewRequestRule :=
  ⟨["alice", "bob"], [], [], false, false, AdminScope.user, 1⟩

/-- A pending childless leaf carrying `ruleW`. -/
def leafW : Result := Result.node Status.pending none [] ruleW

/-- A rule in admin mode with org scope. -/
def ruleAdminW : ReviewRequestRule :=
  ⟨["bob"], [], [], false, true, AdminScope.org, 2⟩

/-- A pending childless leaf carrying `ruleAdminW`. -/
def leafAdminW : Result := Result.node Status.pending none [] ruleAdminW

/-- A rule configuring one team whose membership lookup fails in `ctxW`. -/
def ruleTeamW : ReviewRequestRule :=
  ⟨["bob"], ["the-team"], [], false, false, AdminScope.user, 1⟩

/-- A pending childless leaf carrying `ruleTeamW`. -/
def leafTeamW : Result := Result.node Status.pending none [] ruleTeamW

/-- A rule configuring one organization whose membership lookup fails. -/
def ruleOrgW : ReviewRequestRule :=
  ⟨["bob"], [], ["the-org"], false, false, AdminScope.user, 1⟩

/-- A context whose team and organization member lookups succeed for one
identifier each. -/
def ctxTeams : PullContext :=
  { ctxW with
    teamMembers := fun t => if t = "t1" then Except.ok ["u1"] else Except.error "no"
    organizationMembers := fun o => if o = "o1" then Except.ok ["v1"] else Except.error "no" }

/-- A pending leaf whose rule is in admin mode with an unrecognized scope. -/
def leafBadScopeW : Result :=
  Result.node Status.pending none [] ⟨[], [], [], false, true, AdminScope.unknown "zap", 1⟩

/-- A context in which no direct collaborator holds admin permission. -/
def ctxNoAdmins : PullContext :=
  { ctxW with directRepositoryCollaborators := Except.ok [("bob", "write")] }

/-- A pending leaf in admin mode with user scope and a positive count. -/
def leafAdminUserW : Result :=
  Result.node Status.pending none [] ⟨["bob"], [], [], false, true, AdminScope.user, 3⟩

/-! ### Generator and sampler lemmas -/

theorem intn_eq_some {r : Rng} {k m : Nat} {r' : Rng} (h : r.intn k = some (m, r')) :
    m < k ∧ r'.stream = r.stream ∧ r'.pos = r.pos + 1 := by
  unfold Rng.intn at h
  split at h
  · simp at h
  · next hk =>
    simp only [Option.some.injEq, Prod.mk.injEq] at h
    obtain ⟨hm, hr⟩ := h
    subst hm
    subst hr
    exact ⟨Nat.mod_lt _ (Nat.pos_of_ne_zero hk), rfl, rfl⟩

theorem intn_ne_none {r : Rng} {k : Nat} (hk : k ≠ 0) : r.intn k ≠ none := by
  unfold Rng.intn
  simp [hk]

theorem getD_eq_elem (l : List String) (i : Nat) (h : i < l.length) : l.getD i "" = l[i] := by
  simp [List.getD_eq_getElem?_getD, List.getElem?_eq_getElem h]

theorem getD_mem (l : List String) (i : Nat) (h : i < l.length) : l.getD i "" ∈ l := by
  rw [getD_eq_elem l i h]
  exact List.getElem_mem h

theorem pickIndex_ok {users : List String} {selected : List Nat} {n : Nat} (j : Nat) (r : Rng) :
    ∀ m r', pickIndex users selected n j r = Except.ok (m, r') →
      m < users.length ∧ m ∉ selected ∧ r'.stream = r.stream ∧
        r.pos < r'.pos ∧ r'.pos ≤ r.pos + (n * 5 + 1 - j) := by
  refine pickIndex.induct users selected n
    (fun j r => ∀ m r', pickIndex users selected n j r = Except.ok (m, r') →
      m < users.length ∧ m ∉ selected ∧ r'.stream = r.stream ∧
        r.pos < r'.pos ∧ r'.pos ≤ r.pos + (n * 5 + 1 - j)) ?_ ?_ ?_ ?_ j r
  · intro j r hj m r' h
    unfold pickIndex at h
    rw [if_pos hj] at h
    simp at h
  · intro j r hj hi m r' h
    unfold pickIndex at h
    rw [if_neg hj] at h
    simp only [hi] at h
    simp at h
  · intro j r hj m0 r0 hi hmem ih m r' h
    unfold pickIndex at h
    rw [if_neg hj] at h
    simp only [hi, if_pos hmem] at h
    obtain ⟨h1, h2, h3, h4, h5⟩ := ih m r' h
    obtain ⟨_, hs, hp⟩ := intn_eq_some hi
    refine ⟨h1, h2, by rw [h3, hs], ?_, ?_⟩ <;> omega
  · intro j r hj m0 r0 hi hnmem m r' h
    unfold pickIndex at h
    rw [if_neg hj] at h
    simp only [hi, if_neg hnmem, Except.ok.injEq, Prod.mk.injEq] at h
    obtain ⟨hm, hr⟩ := h
    subst hm
    subst hr
    obtain ⟨h1, hs, hp⟩ := intn_eq_some hi
    exact ⟨h1, hnmem, hs, by omega, by omega⟩

theorem pickIndex_error_shape {users : List String} {selected : List Nat} {n : Nat}
    (hu : users ≠ []) (j : Nat) (r : Rng) :
    ∀ e, pickIndex users selected n j r = Except.error e → ∃ msg, e = RunError.panicked msg := by
  refine pickIndex.induct users selected n
    (fun j r => ∀ e, pickIndex users selected n j r = Except.error e →
      ∃ msg, e = RunError.panicked msg) ?_ ?_ ?_ ?_ j r
  · intro j r hj e h
    unfold pickIndex at h
    rw [if_pos hj] at h
    simp only [Except.error.injEq] at h
    exact ⟨_, h.symm⟩
  · intro j r hj hi e h
    have hk : users.length ≠ 0 := fun hk => hu (List.length_eq_zero.mp hk)
    exact absurd hi (intn_ne_none hk)
  · intro j r hj m0 r0 hi hmem ih e h
    unfold pickIndex at h
    rw [if_neg hj] at h
    simp only [hi, if_pos hmem] at h
    exact ih e h
  · intro j r hj m0 r0 hi hnmem e h
    unfold pickIndex at h
    rw [if_neg hj] at h
    simp only [hi, if_neg hnmem] at h
    simp at h

theorem selectLoop_ok {users : List String} {n : Nat} (rem : Nat) :
    ∀ (selected : List Nat) (acc : List String) (r : Rng) (out : List String) (r' : Rng),
      selectLoop users n rem selected acc r = (Except.ok out, r') →
      ∃ idxs : List Nat, out = acc ++ idxs.map (fun i => users.getD i "") ∧
        idxs.length = rem ∧ idxs.Nodup ∧
        (∀ i ∈ idxs, i < users.length ∧ i ∉ selected) ∧ r'.stream = r.stream := by
  induction rem with
  | zero =>
    intro selected acc r out r' h
    unfold selectLoop at h
    simp only [Prod.mk.injEq, Except.ok.injEq] at h
    obtain ⟨h1, h2⟩ := h
    subst h1
    subst h2
    exact ⟨[], by simp, rfl, List.nodup_nil, by simp, rfl⟩
  | succ rem ih =>
    intro selected acc r out r' h
    unfold selectLoop at h
    cases hp : pickIndex users selected n 0 r with
    | error e =>
      rw [hp] at h
      simp at h
    | ok p =>
      obtain ⟨m, r0⟩ := p
      rw [hp] at h
      simp only at h
      obtain ⟨idxs, hout, hlen, hnd, hbound, hstream⟩ :=
        ih (m :: selected) (acc ++ [users.getD m ""]) r0 out r' h
      obtain ⟨hm1, hm2, hs, _, _⟩ := pickIndex_ok 0 r m r0 hp
      refine ⟨m :: idxs, ?_, by simp [hlen], ?_, ?_, by rw [hstream, hs]⟩
      · rw [hout]
        simp [List.append_assoc]
      · rw [List.nodup_cons]
        refine ⟨fun hmem => ?_, hnd⟩
        exact (hbound m hmem).2 (List.mem_cons_self m selected)
      · intro i hi
        rcases List.mem_cons.mp hi with rfl | hi'
        · exact ⟨hm1, hm2⟩
        · exact ⟨(hbound i hi').1, fun hc => (hbound i hi').2 (List.mem_cons_of_mem _ hc)⟩

theorem selectLoop_error_shape {users : List String} {n : Nat} (hu : users ≠ []) (rem : Nat) :
    ∀ (selected : List Nat) (acc : List String) (r : Rng) (e : RunError) (r' : Rng),
      selectLoop users n rem selected acc r = (Except.error e, r') →
      ∃ msg, e = RunError.panicked msg := by
  induction rem with
  | zero =>
    intro selected acc r e r' h
    unfold selectLoop at h
    simp at h
  | succ rem ih =>
    intro selected acc r e r' h
    unfold selectLoop at h
    cases hp : pickIndex users selected n 0 r with
    | error e0 =>
      rw [hp] at h
      simp only [Prod.mk.injEq, Except.error.injEq] at h
      obtain ⟨h1, _⟩ := h
      subst h1
      exact pickIndex_error_shape hu 0 r e0 hp
    | ok p =>
      obtain ⟨m, r0⟩ := p
      rw [hp] at h
      simp only at h
      exact ih (m :: selected) (acc ++ [users.getD m ""]) r0 e r' h

theorem selectRandomUsers_zero (users : List String) (r : Rng) :
    selectRandomUsers 0 users r = (Except.ok [], r) := rfl

theorem selectRandomUsers_all {n : Nat} (users : List String) (r : Rng) (hn : n ≠ 0)
    (hlen : users.length ≤ n) : selectRandomUsers n users r = (Except.ok users, r) := by
  unfold selectRandomUsers
  rw [if_neg hn, if_pos hlen]

theorem selectRandomUsers_sample {n : Nat} {users : List String} {r : Rng} {out : List String}
    {r' : Rng} (hn : n ≠ 0) (hlen : n < users.length)
    (h : selectRandomUsers n users r = (Except.ok out, r')) :
    out.length = n ∧ (∀ x ∈ out, x ∈ users) ∧ (users.Nodup → out.Nodup) := by
  unfold selectRandomUsers at h
  rw [if_neg hn, if_neg (by omega)] at h
  obtain ⟨idxs, hout, hlen', hnd, hbound, _⟩ := selectLoop_ok n [] [] r out r' h
  subst hout
  refine ⟨by simpa using hlen', ?_, ?_⟩
  · intro x hx
    simp only [List.nil_append, List.mem_map] at hx
    obtain ⟨i, hi, rfl⟩ := hx
    exact getD_mem users i (hbound i hi).1
  · intro hndu
    simp only [List.nil_append]
    refine List.Nodup.map_on ?_ hnd
    intro i hi j hj hij
    have hi' := (hbound i hi).1
    have hj' := (hbound j hj).1
    rw [getD_eq_elem users i hi', getD_eq_elem users j hj'] at hij
    exact (List.Nodup.getElem_inj_iff hndu).mp hij

theorem selectRandomUsers_subset {n : Nat} {users : List String} {r : Rng} {out : List String}
    {r' : Rng} (h : selectRandomUsers n users r = (Except.ok out, r')) :
    ∀ x ∈ out, x ∈ users := by
  by_cases hn : n = 0
  · subst hn
    rw [selectRandomUsers_zero] at h
    simp only [Prod.mk.injEq, Except.ok.injEq] at h
    obtain ⟨h1, _⟩ := h
    subst h1
    simp
  by_cases hlen : users.length ≤ n
  · rw [selectRandomUsers_all users r hn hlen] at h
    simp only [Prod.mk.injEq, Except.ok.injEq] at h
    obtain ⟨h1, _⟩ := h
    subst h1
    exact fun x hx => hx
  · exact (selectRandomUsers_sample hn (by omega) h).2.1

theorem selectRandomUsers_error_shape {n : Nat} {users : List String} {r : Rng} {e : RunError}
    {r' : Rng} (h : selectRandomUsers n users r = (Except.error e, r')) :
    ∃ msg, e = RunError.panicked msg := by
  unfold selectRandomUsers at h
  by_cases hn : n = 0
  · rw [if_pos hn] at h
    simp at h
  rw [if_neg hn] at h
  by_cases hlen : users.length ≤ n
  · rw [if_pos hlen] at h
    simp at h
  rw [if_neg hlen] at h
  have hu : users ≠ [] := by
    intro hnil
    subst hnil
    simp at hlen
  exact selectLoop_error_shape hu n [] [] r e r' h

/-! ### Team and organization selection lemmas -/

theorem logged_ok (ms : List String) (r : Rng) :
    logged (Except.ok ms, r) = (Except.ok ms, r) := rfl

theorem logged_fail (msg : String) (r : Rng) :
    logged (Except.error (RunError.fail msg), r) = (Except.ok [], r) := rfl

theorem selectTeamMembers_ok {prctx : PullContext} {allTeams : List String} {r : Rng}
    {ms : List String} {r' : Rng} (hne : allTeams ≠ [])
    (h : selectTeamMembers prctx allTeams r = (Except.ok ms, r')) :
    ∃ t ∈ allTeams, prctx.teamMembers t = Except.ok ms := by
  unfold selectTeamMembers at h
  cases hi : r.intn allTeams.length with
  | none =>
    have hk : allTeams.length ≠ 0 := fun hk => hne (List.length_eq_zero.mp hk)
    exact absurd hi (intn_ne_none hk)
  | some p =>
    obtain ⟨i, r0⟩ := p
    rw [hi] at h
    simp only at h
    cases ht : prctx.teamMembers (allTeams.getD i "") with
    | error e =>
      rw [ht] at h
      simp at h
    | ok ms0 =>
      rw [ht] at h
      simp only [Prod.mk.injEq, Except.ok.injEq] at h
      obtain ⟨h1, _⟩ := h
      subst h1
      obtain ⟨hilt, _, _⟩ := intn_eq_some hi
      exact ⟨allTeams.getD i "", getD_mem allTeams i hilt, ht⟩

theorem selectTeamMembers_error_shape {prctx : PullContext} {allTeams : List String} {r : Rng}
    {e : RunError} {r' : Rng} (hne : allTeams ≠ [])
    (h : selectTeamMembers prctx allTeams r = (Except.error e, r')) :
    ∃ msg, e = RunError.fail msg := by
  unfold selectTeamMembers at h
  cases hi : r.intn allTeams.length with
  | none =>
    have hk : allTeams.length ≠ 0 := fun hk => hne (List.length_eq_zero.mp hk)
    exact absurd hi (intn_ne_none hk)
  | some p =>
    obtain ⟨i, r0⟩ := p
    rw [hi] at h
    simp only at h
    cases ht : prctx.teamMembers (allTeams.getD i "") with
    | error e0 =>
      rw [ht] at h
      simp only [Prod.mk.injEq, Except.error.injEq] at h
      exact ⟨_, h.1.symm⟩
    | ok ms0 =>
      rw [ht] at h
      simp at h

theorem selectOrgMembers_ok {prctx : PullContext} {allOrgs : List String} {r : Rng}
    {ms : List String} {r' : Rng} (hne : allOrgs ≠ [])
    (h : selectOrgMembers prctx allOrgs r = (Except.ok ms, r')) :
    ∃ o ∈ allOrgs, prctx.organizationMembers o = Except.ok ms := by
  unfold selectOrgMembers at h
  cases hi : r.intn allOrgs.length with
  | none =>
    have hk : allOrgs.length ≠ 0 := fun hk => hne (List.length_eq_zero.mp hk)
    exact absurd hi (intn_ne_none hk)
  | some p =>
    obtain ⟨i, r0⟩ := p
    rw [hi] at h
    simp only at h
    cases ht : prctx.organizationMembers (allOrgs.getD i "") with
    | error e =>
      rw [ht] at h
      simp at h
    | ok ms0 =>
      rw [ht] at h
      simp only [Prod.mk.injEq, Except.ok.injEq] at h
      obtain ⟨h1, _⟩ := h
      subst h1
      obtain ⟨hilt, _, _⟩ := intn_eq_some hi
      exact ⟨allOrgs.getD i "", getD_mem allOrgs i hilt, ht⟩

theorem selectOrgMembers_error_shape {prctx : PullContext} {allOrgs : List String} {r : Rng}
    {e : RunError} {r' : Rng} (hne : allOrgs ≠ [])
    (h : selectOrgMembers prctx allOrgs r = (Except.error e, r')) :
    ∃ msg, e = RunError.fail msg := by
  unfold selectOrgMembers at h
  cases hi : r.intn allOrgs.length with
  | none =>
    have hk : allOrgs.length ≠ 0 := fun hk => hne (List.length_eq_zero.mp hk)
    exact absurd hi (intn_ne_none hk)
  | some p =>
    obtain ⟨i, r0⟩ := p
    rw [hi] at h
    simp only at h
    cases ht : prctx.organizationMembers (allOrgs.getD i "") with
    | error e0 =>
      rw [ht] at h
      simp only [Prod.mk.injEq, Except.error.injEq] at h
      exact ⟨_, h.1.symm⟩
    | ok ms0 =>
      rw [ht] at h
      simp at h

theorem teamsStep_always_ok (prctx : PullContext) (rule : ReviewRequestRule) (r : Rng) :
    ∃ ms r₁, teamsStep prctx rule r = (Except.ok ms, r₁) := by
  unfold teamsStep
  by_cases hne : rule.teams = []
  · rw [if_pos hne]
    exact ⟨[], r, rfl⟩
  rw [if_neg hne]
  cases hstm : selectTeamMembers prctx rule.teams r with
  | mk res r₁ =>
    cases res with
    | ok ms => exact ⟨ms, r₁, logged_ok ms r₁⟩
    | error e =>
      obtain ⟨msg, rfl⟩ := selectTeamMembers_error_shape hne hstm
      exact ⟨[], r₁, logged_fail msg r₁⟩

theorem orgsStep_always_ok (prctx : PullContext) (rule : ReviewRequestRule) (r : Rng) :
    ∃ ms r₁, orgsStep prctx rule r = (Except.ok ms, r₁) := by
  unfold orgsStep
  by_cases hne : rule.organizations = []
  · rw [if_pos hne]
    exact ⟨[], r, rfl⟩
  rw [if_neg hne]
  cases hstm : selectOrgMembers prctx rule.organizations r with
  | mk res r₁ =>
    cases res with
    | ok ms => exact ⟨ms, r₁, logged_ok ms r₁⟩
    | error e =>
      obtain ⟨msg, rfl⟩ := selectOrgMembers_error_shape hne hstm
      exact ⟨[], r₁, logged_fail msg r₁⟩

theorem teamsStep_of_fail {prctx : PullContext} {rule : ReviewRequestRule} {r : Rng}
    {msg : String} {r₁ : Rng} (hne : rule.teams ≠ [])
    (h : selectTeamMembers prctx rule.teams r = (Except.error (RunError.fail msg), r₁)) :
    teamsStep prctx rule r = (Except.ok [], r₁) := by
  unfold teamsStep
  rw [if_neg hne, h]
  exact logged_fail msg r₁

theorem orgsStep_of_fail {prctx : PullContext} {rule : ReviewRequestRule} {r : Rng}
    {msg : String} {r₁ : Rng} (hne : rule.organizations ≠ [])
    (h : selectOrgMembers prctx rule.organizations r = (Except.error (RunError.fail msg), r₁)) :
    orgsStep prctx rule r = (Except.ok [], r₁) := by
  unfold orgsStep
  rw [if_neg hne, h]
  exact logged_fail msg r₁

/-! ### Admin resolution and eligibility lemmas -/

theorem adminTeamFold_error_shape {prctx : PullContext} (l : List (String × String)) :
    ∀ e, adminTeamFold prctx l = Except.error e → ∃ msg, e = RunError.fail msg := by
  induction l with
  | nil =>
    intro e h
    simp [adminTeamFold] at h
  | cons p rest ih =>
    intro e h
    obtain ⟨team, perm⟩ := p
    unfold adminTeamFold at h
    by_cases hp : perm = githubAdminPermission
    · rw [if_pos hp] at h
      cases ht : prctx.teamMembers (prctx.repositoryOwner ++ "/" ++ team) with
      | error e0 =>
        rw [ht] at h
        simp only [Except.error.injEq] at h
        exact ⟨_, h.symm⟩
      | ok admins =>
        rw [ht] at h
        simp only at h
        cases hrest : adminTeamFold prctx rest with
        | error e0 =>
          rw [hrest] at h
          simp only [Except.error.injEq] at h
          subst h
          exact ih e0 hrest
        | ok restAdmins =>
          rw [hrest] at h
          simp at h
    · rw [if_neg hp] at h
      exact ih e h

theorem selectAdmins_error_shape {prctx : PullContext} {scope : AdminScope} {e : RunError}
    (h : selectAdmins prctx scope = Except.error e) : ∃ msg, e = RunError.fail msg := by
  cases scope with
  | user =>
    unfold selectAdmins at h
    cases hd : prctx.directRepositoryCollaborators with
    | error e0 =>
      rw [hd] at h
      simp only [Except.error.injEq] at h
      exact ⟨_, h.symm⟩
    | ok l =>
      rw [hd] at h
      simp at h
  | team =>
    unfold selectAdmins at h
    cases hd : prctx.teams with
    | error e0 =>
      rw [hd] at h
      simp only [Except.error.injEq] at h
      exact ⟨_, h.symm⟩
    | ok l =>
      rw [hd] at h
      simp only at h
      exact adminTeamFold_error_shape l e h
  | org =>
    unfold selectAdmins at h
    cases hd : prctx.organizationOwners prctx.repositoryOwner with
    | error e0 =>
      rw [hd] at h
      simp only [Except.error.injEq] at h
      exact ⟨_, h.symm⟩
    | ok l =>
      rw [hd] at h
      simp at h
  | unknown s =>
    unfold selectAdmins at h
    simp only [Except.error.injEq] at h
    exact ⟨_, h.symm⟩

theorem selectAdmins_unknown (prctx : PullContext) (s : String) :
    selectAdmins prctx (AdminScope.unknown s) =
      Except.error (RunError.fail ("Unknown AdminScope " ++ s ++ ", ignoring")) := rfl

theorem wrap_fail_shape {e : RunError} {msg : String} (ctx : String)
    (h : e = RunError.fail msg) : ∃ msg2, e.wrap ctx = RunError.fail msg2 := by
  subst h
  exact ⟨ctx ++ ": " ++ msg, rfl⟩

theorem eligStep_admins_false {prctx : PullContext} {rule : ReviewRequestRule}
    (allUsers : List String) (allCollaborators : List (String × String))
    (h : rule.admins = false) :
    eligStep prctx rule allUsers allCollaborators = Except.ok (allUsers, allCollaborators) := by
  unfold eligStep
  rw [h]
  rfl

theorem eligStep_admins_ok {prctx : PullContext} {rule : ReviewRequestRule}
    {admins : List String} (allUsers : List String) (allCollaborators : List (String × String))
    (h : rule.admins = true) (ha : selectAdmins prctx rule.adminScope = Except.ok admins) :
    eligStep prctx rule allUsers allCollaborators =
      Except.ok (insertUsers allUsers admins,
        admins.map (fun a => (a, githubAdminPermission))) := by
  unfold eligStep
  rw [h, ha]
  rfl

theorem eligStep_admins_err {prctx : PullContext} {rule : ReviewRequestRule} {e : RunError}
    (allUsers : List String) (allCollaborators : List (String × String))
    (h : rule.admins = true) (ha : selectAdmins prctx rule.adminScope = Except.error e) :
    eligStep prctx rule allUsers allCollaborators =
      Except.error (e.wrap "Unable to select admins") := by
  unfold eligStep
  rw [h, ha]
  rfl

theorem eligStep_error_shape {prctx : PullContext} {rule : ReviewRequestRule}
    {allUsers : List String} {allCollaborators : List (String × String)} {e : RunError}
    (h : eligStep prctx rule allUsers allCollaborators = Except.error e) :
    ∃ msg, e = RunError.fail msg := by
  cases ha : rule.admins with
  | false =>
    rw [eligStep_admins_false allUsers allCollaborators ha] at h
    simp at h
  | true =>
    cases hsa : selectAdmins prctx rule.adminScope with
    | error e0 =>
      rw [eligStep_admins_err allUsers allCollaborators ha hsa] at h
      simp only [Except.error.injEq] at h
      obtain ⟨msg0, hm⟩ := selectAdmins_error_shape hsa
      obtain ⟨msg2, hw⟩ := wrap_fail_shape "Unable to select admins" hm
      exact ⟨msg2, by rw [← h]; exact hw⟩
    | ok admins =>
      rw [eligStep_admins_ok allUsers allCollaborators ha hsa] at h
      simp at h

theorem eligStep_ok_shape {prctx : PullContext} {rule : ReviewRequestRule}
    {allUsers allUsersF : List String} {allCollaborators elig : List (String × String)}
    (h : eligStep prctx rule allUsers allCollaborators = Except.ok (allUsersF, elig)) :
    (rule.admins = false ∧ allUsersF = allUsers ∧ elig = allCollaborators) ∨
      (rule.admins = true ∧ ∃ admins, selectAdmins prctx rule.adminScope = Except.ok admins ∧
        allUsersF = insertUsers allUsers admins ∧
        elig = admins.map (fun a => (a, githubAdminPermission))) := by
  cases ha : rule.admins with
  | false =>
    rw [eligStep_admins_false allUsers allCollaborators ha] at h
    simp only [Except.ok.injEq, Prod.mk.injEq] at h
    exact Or.inl ⟨rfl, h.1.symm, h.2.symm⟩
  | true =>
    cases hsa : selectAdmins prctx rule.adminScope with
    | error e0 =>
      rw [eligStep_admins_err allUsers allCollaborators ha hsa] at h
      simp at h
    | ok admins =>
      rw [eligStep_admins_ok allUsers allCollaborators ha hsa] at h
      simp only [Except.ok.injEq, Prod.mk.injEq] at h
      exact Or.inr ⟨rfl, admins, rfl, h.1.symm, h.2.symm⟩

theorem lookupA_map_self {admins : List String} {u : String}
    (h : (lookupA (admins.map (fun a => (a, githubAdminPermission))) u).isSome = true) :
    u ∈ admins := by
  induction admins with
  | nil => simp [lookupA] at h
  | cons a rest ih =>
    simp only [List.map_cons] at h
    unfold lookupA at h
    by_cases hau : a = u
    · subst hau
      exact List.mem_cons_self a rest
    · rw [if_neg hau] at h
      exact List.mem_cons_of_mem a (ih h)

theorem mem_finalFilter {prctx : PullContext} {allUsers : List String}
    {elig : List (String × String)} {u : String} :
    u ∈ finalFilter prctx allUsers elig ↔
      u ∈ allUsers ∧ u ≠ prctx.author ∧ (lookupA elig u).isSome = true := by
  unfold finalFilter
  rw [List.mem_filter]
  constructor
  · rintro ⟨h1, h2⟩
    have := of_decide_eq_true h2
    exact ⟨h1, this.1, this.2⟩
  · rintro ⟨h1, h2, h3⟩
    exact ⟨h1, decide_eq_true ⟨h2, h3⟩⟩

/-! ### Candidate aggregation lemmas -/

theorem buildCandidates_eq_of {prctx : PullContext} {child : Result} {r : Rng}
    {tms : List String} {r₁ : Rng} {oms : List String} {r₂ : Rng}
    {allCollaborators : List (String × String)} {allUsersF : List String}
    {elig : List (String × String)}
    (h1 : teamsStep prctx (Result.rule child) r = (Except.ok tms, r₁))
    (h2 : orgsStep prctx (Result.rule child) r₁ = (Except.ok oms, r₂))
    (h3 : prctx.repositoryCollaborators = Except.ok allCollaborators)
    (h4 : eligStep prctx (Result.rule child)
        (writeStep (Result.rule child)
          (insertUsers (insertUsers (usersStep (Result.rule child)) tms) oms) allCollaborators)
        allCollaborators = Except.ok (allUsersF, elig)) :
    buildCandidates prctx child r =
      (Except.ok (finalFilter prctx allUsersF elig, elig), r₂) := by
  unfold buildCandidates
  rw [h1]
  simp only
  rw [h2]
  simp only
  rw [h3]
  simp only
  rw [h4]

theorem buildCandidates_ok_inv {prctx : PullContext} {child : Result} {r : Rng}
    {lst : List String} {elig : List (String × String)} {r' : Rng}
    (h : buildCandidates prctx child r = (Except.ok (lst, elig), r')) :
    ∃ tms r₁ oms r₂ allCollaborators allUsersF,
      teamsStep prctx (Result.rule child) r = (Except.ok tms, r₁) ∧
      orgsStep prctx (Result.rule child) r₁ = (Except.ok oms, r₂) ∧
      prctx.repositoryCollaborators = Except.ok allCollaborators ∧
      eligStep prctx (Result.rule child)
        (writeStep (Result.rule child)
          (insertUsers (insertUsers (usersStep (Result.rule child)) tms) oms) allCollaborators)
        allCollaborators = Except.ok (allUsersF, elig) ∧
      lst = finalFilter prctx allUsersF elig ∧ r' = r₂ := by
  unfold buildCandidates at h
  obtain ⟨tms, r₁, hts⟩ := teamsStep_always_ok prctx (Result.rule child) r
  rw [hts] at h
  simp only at h
  obtain ⟨oms, r₂, hos⟩ := orgsStep_always_ok prctx (Result.rule child) r₁
  rw [hos] at h
  simp only at h
  cases hc : prctx.repositoryCollaborators with
  | error msg =>
    rw [hc] at h
    simp at h
  | ok allCollaborators =>
  rw [hc] at h
  simp only at h
  cases he : eligStep prctx (Result.rule child)
      (writeStep (Result.rule child)
        (insertUsers (insertUsers (usersStep (Result.rule child)) tms) oms) allCollaborators)
      allCollaborators with
  | error e =>
    rw [he] at h
    simp at h
  | ok p =>
  obtain ⟨allUsersF, elig2⟩ := p
  rw [he] at h
  simp only [Prod.mk.injEq, Except.ok.injEq] at h
  obtain ⟨⟨hl, hel⟩, hr⟩ := h
  subst hel
  subst hl
  subst hr
  exact ⟨tms, r₁, oms, r₂, allCollaborators, allUsersF, hts, hos, rfl, he, rfl, rfl⟩

theorem buildCandidates_error_shape {prctx : PullContext} {child : Result} {r : Rng}
    {e : RunError} {r' : Rng}
    (h : buildCandidates prctx child r = (Except.error e, r')) :
    ∃ msg, e = RunError.fail msg := by
  unfold buildCandidates at h
  obtain ⟨tms, r₁, hts⟩ := teamsStep_always_ok prctx (Result.rule child) r
  rw [hts] at h
  simp only at h
  obtain ⟨oms, r₂, hos⟩ := orgsStep_always_ok prctx (Result.rule child) r₁
  rw [hos] at h
  simp only at h
  cases hc : prctx.repositoryCollaborators with
  | error msg =>
    rw [hc] at h
    simp only [Prod.mk.injEq, Except.error.injEq] at h
    exact ⟨_, h.1.symm⟩
  | ok allCollaborators =>
  rw [hc] at h
  simp only at h
  cases he : eligStep prctx (Result.rule child)
      (writeStep (Result.rule child)
        (insertUsers (insertUsers (usersStep (Result.rule child)) tms) oms) allCollaborators)
      allCollaborators with
  | error e0 =>
    rw [he] at h
    simp only [Prod.mk.injEq, Except.error.injEq] at h
    obtain ⟨h1, _⟩ := h
    subst h1
    exact eligStep_error_shape he
  | ok p =>
    obtain ⟨allUsersF, elig2⟩ := p
    rw [he] at h
    simp at h

theorem buildCandidates_collab_err {prctx : PullContext} {child : Result} (r : Rng)
    {msg : String} (hc : prctx.repositoryCollaborators = Except.error msg) :
    ∃ r₂, buildCandidates prctx child r =
      (Except.error (RunError.fail ("Unable to list repository collaborators: " ++ msg)), r₂) := by
  unfold buildCandidates
  obtain ⟨tms, r₁, hts⟩ := teamsStep_always_ok prctx (Result.rule child) r
  rw [hts]
  simp only
  obtain ⟨oms, r₂, hos⟩ := orgsStep_always_ok prctx (Result.rule child) r₁
  rw [hos]
  simp only
  rw [hc]
  exact ⟨r₂, rfl⟩

theorem buildCandidates_admins_err {prctx : PullContext} {child : Result} (r : Rng)
    {e : RunError} {allCollaborators : List (String × String)}
    (ha : (Result.rule child).admins = true)
    (hsa : selectAdmins prctx (Result.rule child).adminScope = Except.error e)
    (hc : prctx.repositoryCollaborators = Except.ok allCollaborators) :
    ∃ r₂, buildCandidates prctx child r =
      (Except.error (e.wrap "Unable to select admins"), r₂) := by
  unfold buildCandidates
  obtain ⟨tms, r₁, hts⟩ := teamsStep_always_ok prctx (Result.rule child) r
  rw [hts]
  simp only
  obtain ⟨oms, r₂, hos⟩ := orgsStep_always_ok prctx (Result.rule child) r₁
  rw [hos]
  simp only
  rw [hc]
  simp only
  rw [eligStep_admins_err _ _ ha hsa]
  exact ⟨r₂, rfl⟩

theorem buildCandidates_ok_of {prctx : PullContext} {child : Result} (r : Rng)
    {allCollaborators : List (String × String)}
    (hc : prctx.repositoryCollaborators = Except.ok allCollaborators)
    (hadm : (Result.rule child).admins = false ∨
      ∃ admins, selectAdmins prctx (Result.rule child).adminScope = Except.ok admins) :
    ∃ lst elig r', buildCandidates prctx child r = (Except.ok (lst, elig), r') := by
  obtain ⟨tms, r₁, hts⟩ := teamsStep_always_ok prctx (Result.rule child) r
  obtain ⟨oms, r₂, hos⟩ := orgsStep_always_ok prctx (Result.rule child) r₁
  rcases hadm with ha | ⟨admins, hsa⟩
  · exact ⟨finalFilter prctx
        (writeStep (Result.rule child)
          (insertUsers (insertUsers (usersStep (Result.rule child)) tms) oms) allCollaborators)
        allCollaborators,
      allCollaborators, r₂,
      buildCandidates_eq_of hts hos hc (eligStep_admins_false _ _ ha)⟩
  · cases ha : (Result.rule child).admins with
    | false =>
      exact ⟨finalFilter prctx
          (writeStep (Result.rule child)
            (insertUsers (insertUsers (usersStep (Result.rule child)) tms) oms) allCollaborators)
          allCollaborators,
        allCollaborators, r₂,
        buildCandidates_eq_of hts hos hc (eligStep_admins_false _ _ ha)⟩
    | true =>
      exact ⟨finalFilter prctx
          (insertUsers
            (writeStep (Result.rule child)
              (insertUsers (insertUsers (usersStep (Result.rule child)) tms) oms)
              allCollaborators)
            admins)
          (admins.map (fun a => (a, githubAdminPermission))),
        admins.map (fun a => (a, githubAdminPermission)), r₂,
        buildCandidates_eq_of hts hos hc (eligStep_admins_ok _ _ ha hsa)⟩

/-! ### Leaf processing and loop lemmas -/

theorem selectRandomUsers_nil (n : Nat) (r : Rng) :
    selectRandomUsers n [] r = (Except.ok [], r) := by
  unfold selectRandomUsers
  by_cases hn : n = 0
  · rw [if_pos hn]
  · rw [if_neg hn, if_pos (by simp)]

theorem processLeaf_eq_of {prctx : PullContext} {child : Result} {r : Rng}
    {lst : List String} {elig : List (String × String)} {r₂ : Rng}
    (hb : buildCandidates prctx child r = (Except.ok (lst, elig), r₂)) :
    processLeaf prctx child r =
      selectRandomUsers (Result.rule child).requiredCount lst r₂ := by
  unfold processLeaf
  rw [hb]

theorem processLeaf_err_of {prctx : PullContext} {child : Result} {r : Rng}
    {e : RunError} {r₂ : Rng}
    (hb : buildCandidates prctx child r = (Except.error e, r₂)) :
    processLeaf prctx child r = (Except.error e, r₂) := by
  unfold processLeaf
  rw [hb]

theorem processLeaf_candidates {prctx : PullContext} {child : Result} {r : Rng}
    {out : List String} {r' : Rng}
    (h : processLeaf prctx child r = (Except.ok out, r')) :
    ∃ lst elig r₂, buildCandidates prctx child r = (Except.ok (lst, elig), r₂) ∧
      selectRandomUsers (Result.rule child).requiredCount lst r₂ = (Except.ok out, r') := by
  unfold processLeaf at h
  cases hb : buildCandidates prctx child r with
  | mk res r₂ =>
  cases res with
  | error e =>
    rw [hb] at h
    simp at h
  | ok p =>
    obtain ⟨lst, elig⟩ := p
    rw [hb] at h
    simp only at h
    exact ⟨lst, elig, r₂, rfl, h⟩

theorem processLeaf_author {prctx : PullContext} {child : Result} {r : Rng}
    {out : List String} {r' : Rng}
    (h : processLeaf prctx child r = (Except.ok out, r')) : prctx.author ∉ out := by
  obtain ⟨lst, elig, r₂, hb, hs⟩ := processLeaf_candidates h
  intro hmem
  have hsub := selectRandomUsers_subset hs _ hmem
  obtain ⟨tms, r₁, oms, r₂', coll, auF, _, _, _, _, hlst, _⟩ := buildCandidates_ok_inv hb
  rw [hlst] at hsub
  exact (mem_finalFilter.mp hsub).2.1 rfl

theorem processLeaf_admins {prctx : PullContext} {child : Result} {r : Rng}
    {out : List String} {r' : Rng} (ha : (Result.rule child).admins = true)
    (h : processLeaf prctx child r = (Except.ok out, r')) :
    ∃ admins, selectAdmins prctx (Result.rule child).adminScope = Except.ok admins ∧
      ∀ u ∈ out, u ∈ admins := by
  obtain ⟨lst, elig, r₂, hb, hs⟩ := processLeaf_candidates h
  obtain ⟨tms, r₁, oms, r₂', coll, auF, hts, hos, hc, he, hlst, hr⟩ := buildCandidates_ok_inv hb
  rcases eligStep_ok_shape he with ⟨hfalse, _, _⟩ | ⟨_, admins, hsa, hFa, hel⟩
  · rw [hfalse] at ha
    exact absurd ha (by simp)
  · refine ⟨admins, hsa, ?_⟩
    intro u hu
    have hul := selectRandomUsers_subset hs u hu
    rw [hlst] at hul
    have hsome := (mem_finalFilter.mp hul).2.2
    rw [hel] at hsome
    exact lookupA_map_self hsome

theorem processLeaf_error_shape {prctx : PullContext} {child : Result} {r : Rng}
    {e : RunError} {r' : Rng}
    (h : processLeaf prctx child r = (Except.error e, r')) :
    (∃ msg, e = RunError.fail msg) ∨ ∃ msg, e = RunError.panicked msg := by
  unfold processLeaf at h
  cases hb : buildCandidates prctx child r with
  | mk res r₂ =>
  cases res with
  | error e0 =>
    rw [hb] at h
    simp only [Prod.mk.injEq, Except.error.injEq] at h
    obtain ⟨h1, _⟩ := h
    subst h1
    exact Or.inl (buildCandidates_error_shape hb)
  | ok p =>
    obtain ⟨lst, elig⟩ := p
    rw [hb] at h
    simp only at h
    exact Or.inr (selectRandomUsers_error_shape h)

theorem processLeaf_admins_empty {prctx : PullContext} {child : Result} (r : Rng)
    {coll : List (String × String)}
    (ha : (Result.rule child).admins = true)
    (hsa : selectAdmins prctx (Result.rule child).adminScope = Except.ok [])
    (hc : prctx.repositoryCollaborators = Except.ok coll) :
    ∃ r', processLeaf prctx child r = (Except.ok [], r') := by
  obtain ⟨tms, r₁, hts⟩ := teamsStep_always_ok prctx (Result.rule child) r
  obtain ⟨oms, r₂, hos⟩ := orgsStep_always_ok prctx (Result.rule child) r₁
  have hb := buildCandidates_eq_of hts hos hc (eligStep_admins_ok _ _ ha hsa)
  have hlst : finalFilter prctx
      (insertUsers
        (writeStep (Result.rule child)
          (insertUsers (insertUsers (usersStep (Result.rule child)) tms) oms) coll)
        [])
      (([] : List String).map (fun a => (a, githubAdminPermission))) = [] := by
    rw [List.eq_nil_iff_forall_not_mem]
    intro u hu
    have hsome := (mem_finalFilter.mp hu).2.2
    simp [lookupA] at hsome
  rw [hlst] at hb
  rw [processLeaf_eq_of hb, selectRandomUsers_nil]
  exact ⟨r₂, rfl⟩

theorem findRandomLoop_author (prctx : PullContext) (leaves : List Result) :
    ∀ acc r out r', prctx.author ∉ acc →
      findRandomLoop prctx leaves acc r = (Except.ok out, r') → prctx.author ∉ out := by
  induction leaves with
  | nil =>
    intro acc r out r' hacc h
    unfold findRandomLoop at h
    simp only [Prod.mk.injEq, Except.ok.injEq] at h
    obtain ⟨h1, _⟩ := h
    subst h1
    exact hacc
  | cons child rest ih =>
    intro acc r out r' hacc h
    unfold findRandomLoop at h
    cases hp : processLeaf prctx child r with
    | mk res r0 =>
    cases res with
    | error e =>
      rw [hp] at h
      simp at h
    | ok sel =>
      rw [hp] at h
      simp only at h
      refine ih (acc ++ sel) r0 out r' ?_ h
      intro hmem
      rcases List.mem_append.mp hmem with hmem1 | hmem2
      · exact hacc hmem1
      · exact processLeaf_author hp hmem2

theorem findRandomLoop_error_head {prctx : PullContext} {child : Result} (rest : List Result)
    (acc : List String) {r : Rng} {e : RunError} {r' : Rng}
    (h : processLeaf prctx child r = (Except.error e, r')) :
    findRandomLoop prctx (child :: rest) acc r = (Except.error e, r') := by
  unfold findRandomLoop
  rw [h]

theorem findRandomLoop_skip {prctx : PullContext} {child : Result} (rest : List Result)
    (acc : List String) {r : Rng} {r0 : Rng}
    (h : processLeaf prctx child r = (Except.ok [], r0)) :
    findRandomLoop prctx (child :: rest) acc r = findRandomLoop prctx rest acc r0 := by
  conv_lhs => unfold findRandomLoop
  rw [h]
  simp only
  rw [List.append_nil]

theorem findRandomLoop_error_shape (prctx : PullContext) (leaves : List Result) :
    ∀ acc r e r', findRandomLoop prctx leaves acc r = (Except.error e, r') →
      (∃ msg, e = RunError.fail msg) ∨ ∃ msg, e = RunError.panicked msg := by
  induction leaves with
  | nil =>
    intro acc r e r' h
    unfold findRandomLoop at h
    simp at h
  | cons child rest ih =>
    intro acc r e r' h
    unfold findRandomLoop at h
    cases hp : processLeaf prctx child r with
    | mk res r0 =>
    cases res with
    | error e0 =>
      rw [hp] at h
      simp only [Prod.mk.injEq, Except.error.injEq] at h
      obtain ⟨h1, _⟩ := h
      subst h1
      exact processLeaf_error_shape hp
    | ok sel =>
      rw [hp] at h
      simp only at h
      exact ih (acc ++ sel) r0 e r' h

/-! ### Leaf collector lemmas -/

theorem sizeOf_child_lt {c r : Result} (hc : some c ∈ Result.children r) :
    sizeOf c < sizeOf r := by
  cases r with
  | node st err cs rr =>
    simp only [Result.children] at hc
    have h1 : sizeOf (some c) < sizeOf cs := List.sizeOf_lt_of_mem hc
    have h2 : sizeOf (some c) = 1 + sizeOf c := by simp
    simp only [Result.node.sizeOf_spec]
    omega

theorem result_strong_ind (P : Result → Prop)
    (h : ∀ r, (∀ c, some c ∈ Result.children r → P c) → P r) (r : Result) : P r :=
  h r (fun c hc => result_strong_ind P h c)
termination_by sizeOf r
decreasing_by exact sizeOf_child_lt hc

theorem mem_findLeafChildrenList {leaf : Result} (cs : List (Option Result)) :
    leaf ∈ findLeafChildrenList cs ↔
      ∃ c, some c ∈ cs ∧ Result.status c = Status.pending ∧ leaf ∈ findLeafChildren c := by
  induction cs with
  | nil => simp [findLeafChildrenList]
  | cons c rest ih =>
    cases c with
    | none =>
      unfold findLeafChildrenList
      simp only [List.nil_append]
      rw [ih]
      constructor
      · rintro ⟨c, hc, hp, hm⟩
        exact ⟨c, List.mem_cons_of_mem _ hc, hp, hm⟩
      · rintro ⟨c, hc, hp, hm⟩
        rcases List.mem_cons.mp hc with heq | hc'
        · exact absurd heq (by simp)
        · exact ⟨c, hc', hp, hm⟩
    | some child =>
      unfold findLeafChildrenList
      simp only
      by_cases hp : Result.status child = Status.pending
      · rw [if_pos hp, List.mem_append, ih]
        constructor
        · rintro (h1 | ⟨c, hc, hpc, hm⟩)
          · exact ⟨child, List.mem_cons_self _ _, hp, h1⟩
          · exact ⟨c, List.mem_cons_of_mem _ hc, hpc, hm⟩
        · rintro ⟨c, hc, hpc, hm⟩
          rcases List.mem_cons.mp hc with heq | hc'
          · injection heq with heq2
            subst heq2
            exact Or.inl hm
          · exact Or.inr ⟨c, hc', hpc, hm⟩
      · rw [if_neg hp, List.nil_append, ih]
        constructor
        · rintro ⟨c, hc, hpc, hm⟩
          exact ⟨c, List.mem_cons_of_mem _ hc, hpc, hm⟩
        · rintro ⟨c, hc, hpc, hm⟩
          rcases List.mem_cons.mp hc with heq | hc'
          · injection heq with heq2
            subst heq2
            exact absurd hpc hp
          · exact ⟨c, hc', hpc, hm⟩

theorem mem_findLeafChildren_aux (root : Result) :
    ∀ leaf, leaf ∈ findLeafChildren root ↔
      (ReachPending root leaf ∧ Result.children leaf = [] ∧
        Result.status leaf = Status.pending ∧ Result.error leaf = none) := by
  refine result_strong_ind
    (fun root => ∀ leaf, leaf ∈ findLeafChildren root ↔
      (ReachPending root leaf ∧ Result.children leaf = [] ∧
        Result.status leaf = Status.pending ∧ Result.error leaf = none)) ?_ root
  intro r ih leaf
  cases r with
  | node st err cs rr =>
    cases cs with
    | nil =>
      have hfl : findLeafChildren (Result.node st err [] rr) =
          if st = Status.pending ∧ err = none then [Result.node st err [] rr] else [] := rfl
      rw [hfl]
      by_cases hcond : st = Status.pending ∧ err = none
      · rw [if_pos hcond]
        simp only [List.mem_singleton]
        constructor
        · rintro rfl
          exact ⟨ReachPending.refl _, rfl, hcond.1, hcond.2⟩
        · rintro ⟨hreach, hch, hst, herr⟩
          cases hreach with
          | refl => rfl
          | step hc hpc hr =>
            simp [Result.children] at hc
      · rw [if_neg hcond]
        simp only [List.not_mem_nil, false_iff]
        rintro ⟨hreach, hch, hst, herr⟩
        cases hreach with
        | refl =>
          simp only [Result.status, Result.error] at hst herr
          exact hcond ⟨hst, herr⟩
        | step hc hpc hr =>
          simp [Result.children] at hc
    | cons c rest =>
      have hfl : findLeafChildren (Result.node st err (c :: rest) rr) =
          findLeafChildrenList (c :: rest) := rfl
      rw [hfl, mem_findLeafChildrenList]
      constructor
      · rintro ⟨child, hc, hpc, hm⟩
        have hch : some child ∈ Result.children (Result.node st err (c :: rest) rr) := by
          simpa [Result.children] using hc
        obtain ⟨hreach, h1, h2, h3⟩ := (ih child hch leaf).mp hm
        exact ⟨ReachPending.step hch hpc hreach, h1, h2, h3⟩
      · rintro ⟨hreach, hch, hst, herr⟩
        cases hreach with
        | refl =>
          simp [Result.children] at hch
        | step hc hpc hr =>
          next child =>
            have hc' : some child ∈ c :: rest := by
              simpa [Result.children] using hc
            exact ⟨child, hc', hpc, (ih child hc leaf).mpr ⟨hr, hch, hst, herr⟩⟩

/-! ### Top-level lemmas -/

theorem FindRandomRequesters_author {prctx : PullContext} {res : Result} {r : Rng}
    {out : List String} (h : FindRandomRequesters prctx res r = Except.ok out) :
    prctx.author ∉ out := by
  unfold FindRandomRequesters at h
  cases hl : findRandomLoop prctx (findLeafChildren res) [] r with
  | mk lres r' =>
  rw [hl] at h
  cases lres with
  | error e => simp at h
  | ok out0 =>
    simp only [Except.ok.injEq] at h
    subst h
    exact findRandomLoop_author prctx (findLeafChildren res) [] r out0 r' (by simp) hl

theorem FindRandomRequesters_shape (prctx : PullContext) (res : Result) (r : Rng) :
    (∃ out, FindRandomRequesters prctx res r = Except.ok out) ∨
      (∃ msg, FindRandomRequesters prctx res r = Except.error (RunError.fail msg)) ∨
      (∃ msg, FindRandomRequesters prctx res r = Except.error (RunError.panicked msg)) := by
  unfold FindRandomRequesters
  cases hl : findRandomLoop prctx (findLeafChildren res) [] r with
  | mk lres r' =>
  cases lres with
  | ok out0 => exact Or.inl ⟨out0, rfl⟩
  | error e =>
    rcases findRandomLoop_error_shape prctx (findLeafChildren res) [] r e r' hl with
      ⟨m, rfl⟩ | ⟨m, rfl⟩
    · exact Or.inr (Or.inl ⟨m, rfl⟩)
    · exact Or.inr (Or.inr ⟨m, rfl⟩)

theorem FindRandomRequesters_collab_err {prctx : PullContext} {res : Result} (r : Rng)
    {msg : String} (hc : prctx.repositoryCollaborators = Except.error msg)
    (hne : findLeafChildren res ≠ []) :
    ∃ e, FindRandomRequesters prctx res r = Except.error e := by
  unfold FindRandomRequesters
  cases hl : findLeafChildren res with
  | nil => exact absurd hl hne
  | cons l rest =>
    obtain ⟨r₂, hb⟩ := buildCandidates_collab_err r hc
    have hp := processLeaf_err_of hb
    rw [findRandomLoop_error_head rest [] hp]
    exact ⟨_, rfl⟩

/-! ### Claim theorems -/

/-- C1: for every pending leaf, every login in the leaf's final candidate
list (the list handed to the random sampler) is present in the leaf's
eligibility set and differs from the PR author; consequently the PR author
never appears in the output of `FindRandomRequesters`. -/
theorem claim_C1 :
    (∀ (prctx : PullContext) (child : Result) (r : Rng) (lst : List String)
        (elig : List (String × String)) (r' : Rng),
      buildCandidates prctx child r = (Except.ok (lst, elig), r') →
      ∀ u ∈ lst, (lookupA elig u).isSome = true ∧ u ≠ prctx.author) ∧
    (∀ (prctx : PullContext) (res : Result) (r : Rng) (out : List String),
      FindRandomRequesters prctx res r = Except.ok out → prctx.author ∉ out) := by
  constructor
  · intro prctx child r lst elig r' h u hu
    obtain ⟨tms, r₁, oms, r₂, coll, auF, _, _, _, _, hlst, _⟩ := buildCandidates_ok_inv h
    rw [hlst] at hu
    obtain ⟨_, hne, hsome⟩ := mem_finalFilter.mp hu
    exact ⟨hsome, hne⟩
  · intro prctx res r out h
    exact FindRandomRequesters_author h

/-- C1 witness: a concrete aggregation on `ctxW` and `leafW` whose only
candidate is "bob", and a concrete top-level run excluding the author. -/
theorem claim_C1_witness :
    ((lookupA [("alice", "admin"), ("bob", "write"), ("carol", "write")] "bob").isSome = true ∧
        "bob" ≠ ctxW.author) ∧
      ctxW.author ∉ ["bob"] :=
  ⟨claim_C1.1 ctxW leafW rngZero ["bob"]
      [("alice", "admin"), ("bob", "write"), ("carol", "write")] rngZero rfl "bob"
      (by decide),
    claim_C1.2 ctxW leafW rngZero ["bob"] rfl⟩

/-- C2 counterexample: with candidate list ["a", "a", "b"] (a duplicated
login) and n = 2, the sampling branch applies (n is neither 0 nor ≥ the
length), yet the run succeeds returning ["a", "a"], which contains a
duplicate — contradicting "exactly n distinct logins, never containing
duplicates". -/
theorem claim_C2_counterexample :
    (2 : Nat) ≠ 0 ∧ ¬ ((["a", "a", "b"] : List String).length ≤ 2) ∧
      (selectRandomUsers 2 ["a", "a", "b"] rngId).1 = Except.ok ["a", "a"] ∧
      ¬ (["a", "a"] : List String).Nodup := by
  refine ⟨by decide, by decide, ?_, by decide⟩
  simp [selectRandomUsers, selectLoop, pickIndex, Rng.intn, rngId]

/-- C2 (amended): n = 0 yields the empty list; n ≥ length yields the
candidate list unchanged; otherwise a successful run returns exactly n
values drawn at n distinct indices — each a member of the candidates, and
pairwise distinct whenever the candidate list itself contains no duplicate
logins. -/
theorem claim_C2_amended :
    (∀ (users : List String) (r : Rng), selectRandomUsers 0 users r = (Except.ok [], r)) ∧
    (∀ (n : Nat) (users : List String) (r : Rng), n ≠ 0 → users.length ≤ n →
      selectRandomUsers n users r = (Except.ok users, r)) ∧
    (∀ (n : Nat) (users : List String) (r : Rng) (out : List String) (r' : Rng),
      n ≠ 0 → n < users.length → selectRandomUsers n users r = (Except.ok out, r') →
      out.length = n ∧ (∀ x ∈ out, x ∈ users) ∧ (users.Nodup → out.Nodup)) := by
  refine ⟨selectRandomUsers_zero, ?_, ?_⟩
  · intro n users r hn hlen
    exact selectRandomUsers_all users r hn hlen
  · intro n users r out r' hn hlen h
    exact selectRandomUsers_sample hn hlen h

/-- C2 witness: the three branches exercised on concrete inputs. -/
theorem claim_C2_witness :
    selectRandomUsers 0 ["a"] rngZero = (Except.ok [], rngZero) ∧
      selectRandomUsers 2 ["a"] rngZero = (Except.ok ["a"], rngZero) ∧
      ((["a"] : List String).length = 1 ∧ (∀ x ∈ (["a"] : List String), x ∈ ["a", "b"]) ∧
        ((["a", "b"] : List String).Nodup → (["a"] : List String).Nodup)) :=
  ⟨claim_C2_amended.1 ["a"] rngZero,
    claim_C2_amended.2.1 2 ["a"] rngZero (by decide) (by decide),
    claim_C2_amended.2.2 1 ["a", "b"] rngZero ["a"] ⟨rngZero.stream, 1⟩ (by decide) (by decide)
      (by simp [selectRandomUsers, selectLoop, pickIndex, Rng.intn, rngZero])⟩

/-- C3: a node is returned by `findLeafChildren` exactly when it is
childless, Pending, error-free and reachable from the root through
non-nil Pending children (non-Pending subtrees pruned); moreover the
returned list is assembled depth-first, left-to-right over the children. -/
theorem claim_C3 :
    (∀ root leaf, leaf ∈ findLeafChildren root ↔
      (ReachPending root leaf ∧ Result.children leaf = [] ∧
        Result.status leaf = Status.pending ∧ Result.error leaf = none)) ∧
    (∀ st err rest rr, findLeafChildren (Result.node st err (none :: rest) rr) =
      findLeafChildrenList rest) ∧
    (∀ st err child rest rr, Result.status child = Status.pending →
      findLeafChildren (Result.node st err (some child :: rest) rr) =
        findLeafChildren child ++ findLeafChildrenList rest) ∧
    (∀ st err child rest rr, Result.status child ≠ Status.pending →
      findLeafChildren (Result.node st err (some child :: rest) rr) =
        findLeafChildrenList rest) := by
  refine ⟨mem_findLeafChildren_aux, ?_, ?_, ?_⟩
  · intro st err rest rr
    have h1 : findLeafChildren (Result.node st err (none :: rest) rr) =
        findLeafChildrenList (none :: rest) := rfl
    rw [h1]
    conv_lhs => unfold findLeafChildrenList
    simp
  · intro st err child rest rr hp
    have h1 : findLeafChildren (Result.node st err (some child :: rest) rr) =
        findLeafChildrenList (some child :: rest) := rfl
    rw [h1]
    conv_lhs => unfold findLeafChildrenList
    simp only
    rw [if_pos hp]
  · intro st err child rest rr hp
    have h1 : findLeafChildren (Result.node st err (some child :: rest) rr) =
        findLeafChildrenList (some child :: rest) := rfl
    rw [h1]
    conv_lhs => unfold findLeafChildrenList
    simp only
    rw [if_neg hp]
    simp

/-- C3 witness: a pending childless root is its own reviewable leaf. -/
theorem claim_C3_witness : leafW ∈ findLeafChildren leafW :=
  (claim_C3.1 leafW leafW).mpr ⟨ReachPending.refl leafW, rfl, rfl, rfl⟩

/-- C4: when the rule is in admin mode, every login returned for the leaf
is a member of the admin set resolved by `selectAdmins` for the rule's
scope — never a non-admin collaborator, whatever entered the candidate
set. -/
theorem claim_C4 :
    ∀ (prctx : PullContext) (child : Result) (r : Rng) (out : List String) (r' : Rng),
      (Result.rule child).admins = true →
      processLeaf prctx child r = (Except.ok out, r') →
      ∃ admins, selectAdmins prctx (Result.rule child).adminScope = Except.ok admins ∧
        ∀ u ∈ out, u ∈ admins := by
  intro prctx child r out r' ha h
  exact processLeaf_admins ha h

/-- C4 witness: on `leafAdminW` the output ["x", "y"] is exactly the
resolved org-owner admin set, although "bob" was in `rule.users`. -/
theorem claim_C4_witness :
    ∃ admins, selectAdmins ctxW (Result.rule leafAdminW).adminScope = Except.ok admins ∧
      ∀ u ∈ ["x", "y"], u ∈ admins :=
  claim_C4 ctxW leafAdminW rngZero ["x", "y"] rngZero rfl rfl

/-- C5: with a non-empty team (resp. organization) list, the selector
returns the membership of exactly one configured team (resp. organization)
— never a union across the configured set. -/
theorem claim_C5 :
    (∀ (prctx : PullContext) (allTeams : List String) (r : Rng) (ms : List String) (r' : Rng),
      allTeams ≠ [] → selectTeamMembers prctx allTeams r = (Except.ok ms, r') →
      ∃ t ∈ allTeams, prctx.teamMembers t = Except.ok ms) ∧
    (∀ (prctx : PullContext) (allOrgs : List String) (r : Rng) (ms : List String) (r' : Rng),
      allOrgs ≠ [] → selectOrgMembers prctx allOrgs r = (Except.ok ms, r') →
      ∃ o ∈ allOrgs, prctx.organizationMembers o = Except.ok ms) := by
  constructor
  · intro prctx allTeams r ms r' hne h
    exact selectTeamMembers_ok hne h
  · intro prctx allOrgs r ms r' hne h
    exact selectOrgMembers_ok hne h

/-- C5 witness: concrete single-team and single-org selections. -/
theorem claim_C5_witness :
    (∃ t ∈ (["t1"] : List String), ctxTeams.teamMembers t = Except.ok ["u1"]) ∧
      ∃ o ∈ (["o1"] : List String), ctxTeams.organizationMembers o = Except.ok ["v1"] :=
  ⟨claim_C5.1 ctxTeams ["t1"] rngZero ["u1"] ⟨rngZero.stream, 1⟩ (by decide) rfl,
    claim_C5.2 ctxTeams ["o1"] rngZero ["v1"] ⟨rngZero.stream, 1⟩ (by decide) rfl⟩

/-- C6 counterexample: a successful sampling run with n = 2 and three
candidates that makes 12 random draw attempts in total — more than the
claimed total cap of 5 * n = 10 — and still returns normally, so the cap
is not a cap on total draw attempts. -/
theorem claim_C6_counterexample :
    (2 : Nat) ≠ 0 ∧ ¬ ((["a", "b", "c"] : List String).length ≤ 2) ∧
      (selectRandomUsers 2 ["a", "b", "c"] rngCollide).1 = Except.ok ["a", "b"] ∧
      (selectRandomUsers 2 ["a", "b", "c"] rngCollide).2.pos - rngCollide.pos = 12 ∧
      ¬ (12 ≤ 5 * 2) := by
  refine ⟨by decide, by decide, ?_, ?_, by decide⟩
  · simp [selectRandomUsers, selectLoop, pickIndex, Rng.intn, rngCollide]
  · simp [selectRandomUsers, selectLoop, pickIndex, Rng.intn, rngCollide]

/-- C6 (amended): the retry cap is per selection round, not global: one
round of the sampler (one element to pick, failure counter starting at j)
advances the generator by at most 5 * n + 1 - j draws before succeeding,
and when the cap is exhausted the round fails loudly with the fatal
`panicked` error (the Go panic) — never a silent truncation and never an
indefinite retry. -/
theorem claim_C6_amended :
    (∀ (users : List String) (selected : List Nat) (n j : Nat) (r : Rng) (m : Nat) (r' : Rng),
      pickIndex users selected n j r = Except.ok (m, r') →
      r'.pos - r.pos ≤ n * 5 + 1 - j) ∧
    (∀ (users : List String) (selected : List Nat) (n j : Nat) (r : Rng) (e : RunError),
      users ≠ [] → pickIndex users selected n j r = Except.error e →
      ∃ msg, e = RunError.panicked msg) := by
  constructor
  · intro users selected n j r m r' h
    obtain ⟨_, _, _, _, h5⟩ := pickIndex_ok j r m r' h
    omega
  · intro users selected n j r e hu h
    exact pickIndex_error_shape hu j r e h

/-- C6 witness: one concrete bounded round and one concrete exhausted
round ending in the fatal panic error. -/
theorem claim_C6_witness :
    ((⟨rngZero.stream, 1⟩ : Rng).pos - rngZero.pos ≤ 1 * 5 + 1 - 0) ∧
      ∃ msg, RunError.panicked "Unable to select random value for 1 1" =
        RunError.panicked msg :=
  ⟨claim_C6_amended.1 ["a"] [] 1 0 rngZero 0 ⟨rngZero.stream, 1⟩
      (by simp [pickIndex, Rng.intn, rngZero]),
    claim_C6_amended.2 ["a"] [0] 1 0 rngZero
      (RunError.panicked "Unable to select random value for 1 1") (by decide)
      (by simp [pickIndex, Rng.intn, rngZero]; rfl)⟩

/-- C7: a membership lookup failure for the one sampled team or
organization is non-fatal — that source contributes no members — and the
aggregation for the leaf still succeeds whenever the repository
collaborator listing succeeds (and admin resolution succeeds when
enabled). -/
theorem claim_C7 :
    (∀ (prctx : PullContext) (rule : ReviewRequestRule) (r : Rng) (msg : String) (r₁ : Rng),
      rule.teams ≠ [] →
      selectTeamMembers prctx rule.teams r = (Except.error (RunError.fail msg), r₁) →
      teamsStep prctx rule r = (Except.ok [], r₁)) ∧
    (∀ (prctx : PullContext) (rule : ReviewRequestRule) (r : Rng) (msg : String) (r₁ : Rng),
      rule.organizations ≠ [] →
      selectOrgMembers prctx rule.organizations r = (Except.error (RunError.fail msg), r₁) →
      orgsStep prctx rule r = (Except.ok [], r₁)) ∧
    (∀ (prctx : PullContext) (child : Result) (r : Rng) (coll : List (String × String)),
      prctx.repositoryCollaborators = Except.ok coll →
      ((Result.rule child).admins = false ∨
        ∃ admins, selectAdmins prctx (Result.rule child).adminScope = Except.ok admins) →
      ∃ lst elig r', buildCandidates prctx child r = (Except.ok (lst, elig), r')) := by
  refine ⟨?_, ?_, ?_⟩
  · intro prctx rule r msg r₁ hne h
    exact teamsStep_of_fail hne h
  · intro prctx rule r msg r₁ hne h
    exact orgsStep_of_fail hne h
  · intro prctx child r coll hc hadm
    exact buildCandidates_ok_of r hc hadm

/-- C7 witness: in `ctxW` every team/org member lookup fails, yet the
steps contribute nothing and aggregation on `leafTeamW` succeeds. -/
theorem claim_C7_witness :
    teamsStep ctxW ruleTeamW rngZero = (Except.ok [], ⟨rngZero.stream, 1⟩) ∧
      orgsStep ctxW ruleOrgW rngZero = (Except.ok [], ⟨rngZero.stream, 1⟩) ∧
      ∃ lst elig r', buildCandidates ctxW leafTeamW rngZero = (Except.ok (lst, elig), r') :=
  ⟨claim_C7.1 ctxW ruleTeamW rngZero
      "failed to get member listing for team the-team: team lookup failed"
      ⟨rngZero.stream, 1⟩ (by decide) rfl,
    claim_C7.2.1 ctxW ruleOrgW rngZero
      "failed to get member listing for org the-org: org lookup failed"
      ⟨rngZero.stream, 1⟩ (by decide) rfl,
    claim_C7.2.2 ctxW leafTeamW rngZero
      [("alice", "admin"), ("bob", "write"), ("carol", "write")] rfl (Or.inl rfl)⟩

/-- C8: a failing repository-collaborator listing aborts the whole call
with an error and no reviewer list; an unrecognized admin scope is a hard
error with no fallback; a failing admin resolution in admin mode makes
the leaf fail; and a failing leaf makes the loop return that error,
discarding reviewers accumulated for earlier leaves. -/
theorem claim_C8 :
    (∀ (prctx : PullContext) (res : Result) (r : Rng) (msg : String),
      prctx.repositoryCollaborators = Except.error msg → findLeafChildren res ≠ [] →
      ∃ e, FindRandomRequesters prctx res r = Except.error e) ∧
    (∀ (prctx : PullContext) (s : String),
      selectAdmins prctx (AdminScope.unknown s) =
        Except.error (RunError.fail ("Unknown AdminScope " ++ s ++ ", ignoring"))) ∧
    (∀ (prctx : PullContext) (child : Result) (r : Rng) (e : RunError)
        (coll : List (String × String)),
      (Result.rule child).admins = true →
      selectAdmins prctx (Result.rule child).adminScope = Except.error e →
      prctx.repositoryCollaborators = Except.ok coll →
      ∃ r', processLeaf prctx child r =
        (Except.error (e.wrap "Unable to select admins"), r')) ∧
    (∀ (prctx : PullContext) (child : Result) (rest : List Result) (acc : List String)
        (r : Rng) (e : RunError) (r' : Rng),
      processLeaf prctx child r = (Except.error e, r') →
      findRandomLoop prctx (child :: rest) acc r = (Except.error e, r')) := by
  refine ⟨?_, ?_, ?_, ?_⟩
  · intro prctx res r msg hc hne
    exact FindRandomRequesters_collab_err r hc hne
  · intro prctx s
    exact selectAdmins_unknown prctx s
  · intro prctx child r e coll ha hsa hc
    obtain ⟨r₂, hb⟩ := buildCandidates_admins_err r ha hsa hc
    exact ⟨r₂, processLeaf_err_of hb⟩
  · intro prctx child rest acc r e r' hp
    exact findRandomLoop_error_head rest acc hp

/-- C8 witness: a broken collaborator listing aborts a one-leaf run; the
unknown scope "zap" is a hard error; the bad-scope leaf fails; and a loop
starting with accumulated reviewers returns only the error. -/
theorem claim_C8_witness :
    (∃ e, FindRandomRequesters ctxWBroken leafW rngZero = Except.error e) ∧
      selectAdmins ctxW (AdminScope.unknown "zap") =
        Except.error (RunError.fail ("Unknown AdminScope " ++ "zap" ++ ", ignoring")) ∧
      (∃ r', processLeaf ctxW leafBadScopeW rngZero =
        (Except.error ((RunError.fail "Unknown AdminScope zap, ignoring").wrap
          "Unable to select admins"), r')) ∧
      findRandomLoop ctxW [leafBadScopeW, leafW] ["w"] rngZero =
        (Except.error
          (RunError.fail "Unable to select admins: Unknown AdminScope zap, ignoring"),
          rngZero) :=
  ⟨claim_C8.1 ctxWBroken leafW rngZero "boom" rfl (List.cons_ne_nil leafW []),
    claim_C8.2.1 ctxW "zap",
    claim_C8.2.2.1 ctxW leafBadScopeW rngZero
      (RunError.fail "Unknown AdminScope zap, ignoring")
      [("alice", "admin"), ("bob", "write"), ("carol", "write")] rfl rfl rfl,
    claim_C8.2.2.2 ctxW leafBadScopeW [leafW] ["w"] rngZero
      (RunError.fail "Unable to select admins: Unknown AdminScope zap, ignoring") rngZero rfl⟩

/-- C9: every random index draw is within the bound it was drawn with, and
the top-level function never produces the empty-bound draw panic — its
outcome is always a normal list, an ordinary error, or the sampler's retry
panic, because every draw site is guarded by a non-emptiness check. -/
theorem claim_C9 :
    (∀ (r : Rng) (k m : Nat) (r' : Rng), Rng.intn r k = some (m, r') → m < k) ∧
    (∀ (prctx : PullContext) (res : Result) (r : Rng),
      (∃ out, FindRandomRequesters prctx res r = Except.ok out) ∨
        (∃ msg, FindRandomRequesters prctx res r = Except.error (RunError.fail msg)) ∨
        (∃ msg, FindRandomRequesters prctx res r =
          Except.error (RunError.panicked msg))) := by
  constructor
  · intro r k m r' h
    exact (intn_eq_some h).1
  · exact FindRandomRequesters_shape

/-- C9 witness: a concrete in-bounds draw and a concrete total run. -/
theorem claim_C9_witness :
    (0 : Nat) < 2 ∧
      ((∃ out, FindRandomRequesters ctxW leafW rngZero = Except.ok out) ∨
        (∃ msg, FindRandomRequesters ctxW leafW rngZero = Except.error (RunError.fail msg)) ∨
        (∃ msg, FindRandomRequesters ctxW leafW rngZero =
          Except.error (RunError.panicked msg))) :=
  ⟨claim_C9.1 rngZero 2 0 ⟨rngZero.stream, 1⟩ rfl, claim_C9.2 ctxW leafW rngZero⟩

/-- C10: an empty resolved admin set in admin mode is not an error: the
leaf's processing succeeds with zero reviewers regardless of its required
count, and the loop simply moves on to the remaining leaves. -/
theorem claim_C10 :
    ∀ (prctx : PullContext) (child : Result) (rest : List Result) (acc : List String)
      (r : Rng) (coll : List (String × String)),
      (Result.rule child).admins = true →
      selectAdmins prctx (Result.rule child).adminScope = Except.ok [] →
      prctx.repositoryCollaborators = Except.ok coll →
      (∃ r', processLeaf prctx child r = (Except.ok [], r')) ∧
      (∃ r', findRandomLoop prctx (child :: rest) acc r = findRandomLoop prctx rest acc r') := by
  intro prctx child rest acc r coll ha hsa hc
  obtain ⟨r', hp⟩ := processLeaf_admins_empty r ha hsa hc
  exact ⟨⟨r', hp⟩, ⟨r', findRandomLoop_skip rest acc hp⟩⟩

/-- C10 witness: `ctxNoAdmins` resolves no user-scope admins, so the
admin-mode leaf with required count 3 contributes zero reviewers and the
loop continues. -/
theorem claim_C10_witness :
    (∃ r', processLeaf ctxNoAdmins leafAdminUserW rngZero = (Except.ok [], r')) ∧
      ∃ r', findRandomLoop ctxNoAdmins [leafAdminUserW, leafW] ["w"] rngZero =
        findRandomLoop ctxNoAdmins [leafW] ["w"] r' :=
  claim_C10 ctxNoAdmins leafAdminUserW [leafW] ["w"] rngZero
    [("alice", "admin"), ("bob", "write"), ("carol", "write")] rfl rfl rfl
